import Mathlib

/-!
# Verification of the MoHRE Employee-List Converter

A shallow embedding of the table-cleaning pipeline of the repository
(`src/convert.py` and `src/app.py`) together with proofs about it.

Modelling conventions:
* Python strings are `List Char` (a sequence of Unicode code points).
* A pandas cell is a `Cell`: Python `None`, the floating NaN marker, or a string.
  The two missing markers are kept distinct because `astype(str)` renders
  `None` as `"None"` and NaN as `"nan"`.
* Regular-expression substitutions on the fixed patterns of the source are
  translated to recursive character-list functions implementing the same
  matching semantics.
* `unicodedata.normalize("NFKC", s)` is an external-library call; theorems
  that do not depend on its behaviour are stated for an arbitrary
  normalization function `nf : List Char → List Char`.  Where a concrete
  normalization is needed, `nfkcModel` implements the fragment of NFKC
  relevant to the strings appearing in this development: the canonical
  composition of U+0065 (e) followed by U+0301 (combining acute) into
  U+00E9 (é), applied to adjacent pairs; all other code points used here
  (ASCII, the control character U+0001, Arabic letters, zero-width
  characters) are fixed points of real NFKC, and a character of combining
  class 0 standing between the pair blocks composition, exactly as in the
  real algorithm.
-/

namespace MohreConv

/-- Python strings, as lists of Unicode code points. -/
abbrev Text := List Char

/-- The ASCII space character U+0020. -/
def spaceChar : Char := Char.ofNat 32

/-- Python's `\d` / `str.isdigit()` on the sanitized alphabet: the ASCII
digits.  (Python also accepts other Unicode decimal digits; the Arabic-Indic
digits are removed by sanitization before any digit test runs, and no other
non-ASCII digit occurs in these documents.) -/
def isDigitChar (c : Char) : Bool := 48 ≤ c.toNat && c.toNat ≤ 57

/-- Characters matched by Python's `\s` and stripped by `str.strip()`:
ASCII whitespace, the C1/Unicode whitespace code points. -/
def pySpace (c : Char) : Bool :=
  let n := c.toNat
  n == 0x20 || (0x9 ≤ n && n ≤ 0xD) || (0x1C ≤ n && n ≤ 0x1F) || n == 0x85 ||
    n == 0xA0 || n == 0x1680 || (0x2000 ≤ n && n ≤ 0x200A) || n == 0x2028 ||
    n == 0x2029 || n == 0x202F || n == 0x205F || n == 0x3000

/-- `ZERO_WIDTH_RE = re.compile(r"[​-‍⁠﻿]")` — the class of
zero-width / BOM characters removed by `clean_cell`. -/
def isZeroWidth (c : Char) : Bool :=
  let n := c.toNat
  (0x200B ≤ n && n ≤ 0x200D) || n == 0x2060 || n == 0xFEFF

/-- `ARABIC_RE = re.compile(r"[؀-ۿݐ-ݿࢠ-ࣿﭐ-﷿ﹰ-﻿]+")`
— the Arabic-block code points removed by `clean_cell`. -/
def isArabicBlock (c : Char) : Bool :=
  let n := c.toNat
  (0x600 ≤ n && n ≤ 0x6FF) || (0x750 ≤ n && n ≤ 0x77F) ||
    (0x8A0 ≤ n && n ≤ 0x8FF) || (0xFB50 ≤ n && n ≤ 0xFDFF) ||
    (0xFE70 ≤ n && n ≤ 0xFEFF)

/-- `ILLEGAL_XLSX_RE = re.compile(r"[\x00-\x08\x0B-\x0C\x0E-\x1F]")` — the
Excel-forbidden control characters removed by `clean_cell`. -/
def isIllegalXlsx (c : Char) : Bool :=
  let n := c.toNat
  n ≤ 0x8 || n == 0xB || n == 0xC || (0xE ≤ n && n ≤ 0x1F)

/-- Model of `unicodedata.normalize("NFKC", ·)` on the fragment of Unicode used
in this development (see the module docstring): the canonical composition
U+0065 U+0301 → U+00E9 is applied to adjacent pairs; every other code point
appearing in this file is a fixed point of real NFKC. -/
def nfkcModel : Text → Text
  | [] => []
  | a :: b :: rest =>
    if a.toNat == 0x65 && b.toNat == 0x301 then Char.ofNat 0xE9 :: nfkcModel rest
    else a :: nfkcModel (b :: rest)
  | [a] => [a]

/-- One pass of `re.sub(r"\s+", " ", s)`: the flag records whether the
previous character was part of a whitespace run already replaced. -/
def collapseWsAux : Bool → Text → Text
  | _, [] => []
  | prevWs, c :: rest =>
    if pySpace c then
      if prevWs then collapseWsAux true rest
      else spaceChar :: collapseWsAux true rest
    else c :: collapseWsAux false rest

/-- `re.sub(r"\s+", " ", s)` — collapse every whitespace run to one space. -/
def collapseWs (s : Text) : Text := collapseWsAux false s

/-- Remove trailing whitespace (the right half of `str.strip()`). -/
def dropTrailWs : Text → Text
  | [] => []
  | c :: rest =>
    let r := dropTrailWs rest
    if r.isEmpty && pySpace c then [] else c :: r

/-- `str.strip()` — remove leading and trailing whitespace. -/
def stripWs (s : Text) : Text := dropTrailWs (s.dropWhile pySpace)

/-- The string-transformation core of `clean_cell` (both files define the
identical function): NFKC-normalize, drop zero-width, Arabic-block and
Excel-illegal characters, collapse whitespace runs to single spaces, strip.
The normalization function is a parameter (see the module docstring). -/
def cleanString (nf : Text → Text) (s : Text) : Text :=
  stripWs (collapseWs
    ((((nf s).filter (fun c => !isZeroWidth c)).filter
        (fun c => !isArabicBlock c)).filter
      (fun c => !isIllegalXlsx c)))

/-- A pandas/Python cell value as it flows through the pipeline: `None`,
the float NaN marker, or a string. -/
inductive Cell where
  | pynone : Cell
  | pynan : Cell
  | pystr : Text → Cell
deriving DecidableEq, Repr

/-- `clean_cell(val)` from `src/convert.py` / `src/app.py`: `None` and NaN
pass through unchanged; a string is cleaned by `cleanString`. -/
def clean_cell (nf : Text → Text) : Cell → Cell
  | .pynone => .pynone
  | .pynan => .pynan
  | .pystr s => .pystr (cleanString nf s)

/-- `str(val)` as pandas' `astype(str)` renders the three cell shapes:
`None` prints as `"None"`, the float NaN as `"nan"`, a string as itself. -/
def astypeStr : Cell → Text
  | .pynone => "None".data
  | .pynan => "nan".data
  | .pystr s => s

/-- `str(val or "")`: `None` and the empty string are falsy and give `""`;
NaN is truthy and stringifies to `"nan"`. -/
def cellOrEmpty : Cell → Text
  | .pynone => []
  | .pynan => "nan".data
  | .pystr s => s

/-- `str.lower()` (ASCII case folding; the non-ASCII code points appearing in
this pipeline are caseless). -/
def lowerText (s : Text) : Text := s.map Char.toLower

/-- Python's `needle in hay` substring test. -/
def subText (needle hay : Text) : Bool :=
  hay.tails.any (fun t => needle.isPrefixOf t)

/-- `str(cell or "").lower().replace(" ", "")` — the key used by the
header-detection predicates. -/
def squashKey (c : Cell) : Text :=
  (lowerText (cellOrEmpty c)).filter (fun ch => ch != spaceChar)

/-- `is_header_row` (convert.py) / `em_is_header_row` (app.py): at least two
cells, the first containing `rowno` and the second `personcode` after
lowercasing and removing spaces. -/
def em_is_header_row (row : List Cell) : Bool :=
  match row with
  | r0 :: r1 :: _ =>
    subText "rowno".data (squashKey r0) && subText "personcode".data (squashKey r1)
  | _ => false

/-- `ne_is_header_row` (app.py): first cell contains `passport`, second
contains `personname`. -/
def ne_is_header_row (row : List Cell) : Bool :=
  match row with
  | r0 :: r1 :: _ =>
    subText "passport".data (squashKey r0) && subText "personname".data (squashKey r1)
  | _ => false

/-- `str.replace("  ", " ")`: one left-to-right non-overlapping pass replacing
each double space by a single space. -/
def replaceDoubleSpace : Text → Text
  | [] => []
  | [c] => [c]
  | c1 :: c2 :: rest =>
    if c1 = spaceChar ∧ c2 = spaceChar then spaceChar :: replaceDoubleSpace rest
    else c1 :: replaceDoubleSpace (c2 :: rest)

/-- Decidable equality for `Except`, used to evaluate pipeline results. -/
instance exceptDecEq {ε α : Type} [DecidableEq ε] [DecidableEq α] :
    DecidableEq (Except ε α) := fun a b =>
  match a, b with
  | .ok x, .ok y =>
    if h : x = y then .isTrue (congrArg Except.ok h)
    else .isFalse (fun hh => h (Except.ok.inj hh))
  | .error x, .error y =>
    if h : x = y then .isTrue (congrArg Except.error h)
    else .isFalse (fun hh => h (Except.error.inj hh))
  | .ok _, .error _ => .isFalse (fun hh => Except.noConfusion hh)
  | .error _, .ok _ => .isFalse (fun hh => Except.noConfusion hh)

/-- `keyize` / `k` from the header coercion: `(x or "").lower().strip().replace("  ", " ")`
applied to the already-extracted string. -/
def keyize (s : Text) : Text := replaceDoubleSpace (stripWs (lowerText s))

/-- `EXPECTED_COLS` (convert.py) = `EM_EXPECTED` (app.py). -/
def EM_EXPECTED : List Text :=
  ["Row No".data, "Person Code".data, "Person Name".data, "Card Number".data,
   "Card Issue Date".data, "Card Expiry Date".data, "Job Type".data, "Sex".data,
   "Total Salary".data]

/-- `EXPECTED_COLS_LC_MAP` / `EM_EXPECTED_LC`: lowercase name → canonical name. -/
def emExpectedLc : List (Text × Text) := EM_EXPECTED.map (fun c => (lowerText c, c))

/-- The `aliases` dict of `coerce_header` / `em_coerce_header`. -/
def emAliases : List (Text × Text) :=
  [("row no".data, "Row No".data), ("row".data, "Row No".data),
   ("person code".data, "Person Code".data), ("person id".data, "Person Code".data),
   ("person name".data, "Person Name".data), ("name".data, "Person Name".data),
   ("card number".data, "Card Number".data),
   ("card issue date".data, "Card Issue Date".data),
   ("issue date".data, "Card Issue Date".data),
   ("card expiry date".data, "Card Expiry Date".data),
   ("expiry date".data, "Card Expiry Date".data),
   ("job type".data, "Job Type".data), ("job".data, "Job Type".data),
   ("sex".data, "Sex".data), ("gender".data, "Sex".data),
   ("total salary".data, "Total Salary".data), ("salary".data, "Total Salary".data)]

/-- Resolution of one raw header label in `coerce_header` / `em_coerce_header`:
clean it, form the lookup key, then try the canonical lowercase map, the alias
table, and finally the cleaned label itself (`cc or ""`; a `None` label keys
and falls back to the empty string). -/
def em_resolve_label (nf : Text → Text) (c : Cell) : Text :=
  let ccT := cellOrEmpty (clean_cell nf c)
  let base := keyize ccT
  match emExpectedLc.lookup base with
  | some v => v
  | none =>
    match emAliases.lookup base with
    | some v => v
    | none => ccT

/-- `coerce_header` (convert.py) = `em_coerce_header` (app.py): empty header →
the canonical list; otherwise map each label, and if fewer than 5 mapped labels
are canonical while the width matches, fall back to the canonical list. -/
def em_coerce_header (nf : Text → Text) (header : List Cell) : List Text :=
  if header.isEmpty then EM_EXPECTED
  else
    let mapped := header.map (em_resolve_label nf)
    if mapped.countP (fun c => EM_EXPECTED.contains c) < 5 ∧
        mapped.length = EM_EXPECTED.length then
      EM_EXPECTED
    else mapped

/-- `NE_EXPECTED` (app.py). -/
def NE_EXPECTED : List Text :=
  ["Passport Number".data, "Person Name".data, "Card Type".data, "Job Name".data,
   "Nationality".data, "Card Number".data, "Contract Type".data]

/-- `NE_EXPECTED_LC` (app.py). -/
def neExpectedLc : List (Text × Text) := NE_EXPECTED.map (fun c => (lowerText c, c))

/-- The `aliases` dict of `ne_coerce_header` (bilingual keys included). -/
def neAliases : List (Text × Text) :=
  [("passport number".data, "Passport Number".data),
   ("passport no".data, "Passport Number".data),
   ("رقم جواز السفر".data, "Passport Number".data),
   ("رقمجوازالسفر".data, "Passport Number".data),
   ("person name".data, "Person Name".data), ("name".data, "Person Name".data),
   ("اسم الشخص".data, "Person Name".data),
   ("card type".data, "Card Type".data), ("نوع البطاقة".data, "Card Type".data),
   ("job name".data, "Job Name".data), ("job".data, "Job Name".data),
   ("المهنة".data, "Job Name".data),
   ("nationality".data, "Nationality".data), ("الجنسية".data, "Nationality".data),
   ("card number".data, "Card Number".data), ("رقم البطاقة".data, "Card Number".data),
   ("contract type".data, "Contract Type".data), ("نوع العقد".data, "Contract Type".data)]

/-- Does `\s*/\s*[؀-ۿ]` match at the head of `l`?  (The `.*$` tail of
the pattern always matches under `re.DOTALL`.) -/
def slashArabicAt (l : Text) : Bool :=
  match l.dropWhile pySpace with
  | c :: rest =>
    c = Char.ofNat 0x2F &&
      (match rest.dropWhile pySpace with
       | d :: _ => 0x600 ≤ d.toNat && d.toNat ≤ 0x6FF
       | [] => false)
  | [] => false

/-- Does `\n+[؀-ۿ]` match at the head of `l`?  Backtracking inside
the newline run cannot help because a newline is not an Arabic letter, so the
run must be consumed entirely. -/
def nlArabicAt (l : Text) : Bool :=
  match l with
  | c :: _ =>
    c = Char.ofNat 0xA &&
      (match l.dropWhile (fun x => x = Char.ofNat 0xA) with
       | d :: _ => 0x600 ≤ d.toNat && d.toNat ≤ 0x6FF
       | [] => false)
  | [] => false

/-- `re.sub(p ++ ".*$", "", s, flags=re.DOTALL)`: truncate at the leftmost
position where `p` matches (the matched tail runs to the end of the string). -/
def cutLeftmost (p : Text → Bool) : Text → Text
  | [] => []
  | c :: rest => if p (c :: rest) then [] else c :: cutLeftmost p rest

/-- `strip_bilingual_noise` from `ne_coerce_header`: drop a slash- or
newline-introduced Arabic tail, then strip. -/
def strip_bilingual_noise (s : Text) : Text :=
  stripWs (cutLeftmost nlArabicAt (cutLeftmost slashArabicAt s))

/-- Resolution of one raw header label in `ne_coerce_header`.  In the source,
`strip_bilingual_noise` is a bare `re.sub` call: a label that cleans to `None`
(or a NaN label) raises `TypeError`, modelled as `Except.error`. -/
def ne_resolve_label (nf : Text → Text) (c : Cell) : Except Unit Text :=
  match clean_cell nf c with
  | .pystr s =>
    let cc := strip_bilingual_noise s
    let base := keyize cc
    .ok (match neExpectedLc.lookup base with
         | some v => v
         | none =>
           match neAliases.lookup base with
           | some v => v
           | none => cc)
  | _ => .error ()

/-- Resolve all labels of a raw header, propagating a `TypeError`. -/
def ne_resolve_all (nf : Text → Text) : List Cell → Except Unit (List Text)
  | [] => .ok []
  | c :: rest => do
    let v ← ne_resolve_label nf c
    let vs ← ne_resolve_all nf rest
    pure (v :: vs)

/-- `ne_coerce_header` (app.py): as `em_coerce_header` but with the
non-Emirati schema, bilingual-noise stripping, and the possible `TypeError`
on a non-string label. -/
def ne_coerce_header (nf : Text → Text) (header : List Cell) : Except Unit (List Text) :=
  if header.isEmpty then .ok NE_EXPECTED
  else do
    let mapped ← ne_resolve_all nf header
    if mapped.countP (fun c => NE_EXPECTED.contains c) < 5 ∧
        mapped.length = NE_EXPECTED.length then
      pure NE_EXPECTED
    else pure mapped

/-- `align_to_header` (convert.py): pad short rows with empty-string cells,
truncate long rows, to exactly `header_len` columns. -/
def align_to_header (body : List (List Cell)) (header_len : Nat) : List (List Cell) :=
  body.map (fun r =>
    if r.length < header_len then
      r ++ List.replicate (header_len - r.length) (Cell.pystr [])
    else if header_len < r.length then r.take header_len
    else r)

/-- The row-alignment expression of app.py (line 94 / 185):
`(r + [""]*max(0, len(header)-len(r)))[:len(header)]`. -/
def alignRowApp (n : Nat) (r : List Cell) : List Cell :=
  (r ++ List.replicate (n - r.length) (Cell.pystr [])).take n

/-- Python's `\w` over the code points this pipeline handles: ASCII
alphanumerics, underscore, and the Arabic letters used by the bilingual meta
phrases.  (Other non-ASCII word characters do not occur in the patterns.) -/
def isWordChar (c : Char) : Bool :=
  c.isAlphanum || c = Char.ofNat 0x5F || (0x600 ≤ c.toNat && c.toNat ≤ 0x6FF)

/-- Case-insensitive literal match of `p` (stored lowercase) at the head of
`hay`. -/
def ciStarts (p hay : Text) : Bool := lowerText (hay.take p.length) == p

/-- One plain META_PAT alternative at the head of `hay`: the phrase (which
ends in a word character) followed by `(?:\b|:)` — end of string, a non-word
character, or a colon. -/
def plainPhraseAt (p hay : Text) : Bool :=
  ciStarts p hay &&
    (match hay.drop p.length with
     | [] => true
     | c :: _ => !isWordChar c || c == Char.ofNat 0x3A)

/-- The `Total\s*:` alternative followed by `(?:\b|:)`.  After the consumed
colon a word boundary requires a word character next, and the literal-colon
branch requires another colon. -/
def totalColonAt (hay : Text) : Bool :=
  ciStarts "total".data hay &&
    (match (hay.drop 5).dropWhile pySpace with
     | c :: rest =>
       c == Char.ofNat 0x3A &&
         (match rest with
          | d :: _ => isWordChar d || d == Char.ofNat 0x3A
          | [] => false)
     | [] => false)

/-- The `QR\b` alternative (the following `(?:\b|:)` is then automatic). -/
def qrAt (hay : Text) : Bool :=
  ciStarts "qr".data hay &&
    (match hay.drop 2 with
     | c :: _ => !isWordChar c
     | [] => true)

/-- The plain phrases of convert.py's META_PAT (lowercased). -/
def metaPlainConvert : List Text :=
  ["establishment name".data, "establishment number".data, "address".data,
   "category".data, "scan qr".data, "printing date".data, "المجموع".data]

/-- The plain phrases of app.py's META_PAT (lowercased), including the
right-to-left equivalents. -/
def metaPlainApp : List Text :=
  metaPlainConvert ++
    ["اسم المنشأة".data, "رقم المنشأة".data, "العنوان".data, "الفئة".data,
     "امسح رمز الاستجابة السريعة".data, "تاريخ الطباعة".data, "إجمالي".data]

/-- Any META_PAT alternative at the head of `hay`. -/
def metaAltAt (phrases : List Text) (hay : Text) : Bool :=
  phrases.any (fun p => plainPhraseAt p hay) || totalColonAt hay || qrAt hay

/-- `re.search` of META_PAT: try every position; the leading `(?:^|\b)` holds
at the start of the string and after any non-word character (every
alternative starts with a word character). -/
def metaSearchAux (alt : Text → Bool) : Bool → Text → Bool
  | _, [] => false
  | prevWord, c :: rest =>
    (!prevWord && alt (c :: rest)) || metaSearchAux alt (isWordChar c) rest

/-- `pd.notna`-filtered stringification: the join in `is_meta_row` keeps only
non-null cells. -/
def cellNotNa : Cell → Option Text
  | .pystr s => some s
  | _ => none

/-- `" | ".join(str(x) for x in row if pd.notna(x))`. -/
def joinRow (row : List Cell) : Text :=
  List.intercalate " | ".data (row.filterMap cellNotNa)

/-- `is_meta_row` as defined inside app.py's `drop_meta_headers`. -/
def is_meta_row_app (row : List Cell) : Bool :=
  metaSearchAux (metaAltAt metaPlainApp) false (joinRow row)

/-- `is_meta_row` as defined inside convert.py's `main`. -/
def is_meta_row_convert (row : List Cell) : Bool :=
  metaSearchAux (metaAltAt metaPlainConvert) false (joinRow row)

/-- `drop_meta_headers(df, is_header_row_fn)` (app.py): drop meta rows, then
drop residual header-like rows. -/
def drop_meta_headers (hdrFn : List Cell → Bool) (rows : List (List Cell)) :
    List (List Cell) :=
  (rows.filter (fun r => !is_meta_row_app r)).filter (fun r => !hdrFn r)

/-- `pd.isna` on a cell. -/
def cellIsNa : Cell → Bool
  | .pynone => true
  | .pynan => true
  | .pystr _ => false

/-- One row of `df.dropna(how="all")`: all cells missing. -/
def rowAllNa (r : List Cell) : Bool := r.all cellIsNa

/-- One row of the blank filter
`df.astype(str).apply(lambda s: s.str.strip()).eq("").all(axis=1)`. -/
def rowBlankStr (r : List Cell) : Bool :=
  r.all (fun c => (stripWs (astypeStr c)).isEmpty)

/-- `any(str(c or "").strip() for c in r)` — the non-empty-row test used when
splitting header from body. -/
def rowHasContent (r : List Cell) : Bool :=
  r.any (fun c => !(stripWs (cellOrEmpty c)).isEmpty)

/-- `split_header_and_body` (convert.py) and the identical inline loops of
app.py: the first header-like row becomes the header, all later header-like
rows are dropped, and only rows with content are kept in the body. -/
def splitHeaderBody (hdrFn : List Cell → Bool) :
    List (List Cell) → Option (List Cell) × List (List Cell)
  | [] => (none, [])
  | r :: rest =>
    let hb := splitHeaderBody hdrFn rest
    if hdrFn r then (some r, hb.2)
    else if rowHasContent r then (hb.1, r :: hb.2)
    else (hb.1, hb.2)

/-- Python `str.isdigit()` on the ASCII alphabet: non-empty and all digits. -/
def pyStrIsdigit (l : Text) : Bool := !l.isEmpty && l.all isDigitChar

/-- `str.title()` (ASCII): uppercase a letter after a non-letter, lowercase a
letter after a letter. -/
def titleCaseAux : Bool → Text → Text
  | _, [] => []
  | prevAlpha, c :: rest =>
    (if c.isAlpha then (if prevAlpha then c.toLower else c.toUpper) else c) ::
      titleCaseAux c.isAlpha rest

/-- `str.strip().str.title()` not included — just `str.title()`. -/
def titleCase (s : Text) : Text := titleCaseAux false s

/-- The per-cell semantics of
`str.extract(r'^(?P<name>.*?)(?P<number>\d{8,})\s*$')` followed by
`number.fillna("")` and `name.fillna(original).str.strip()`: the non-greedy
name group makes the number group the maximal trailing digit run (allowing
trailing whitespace); with no ≥8-digit trailing run the name is the original
cell stripped; on a non-string cell the `.str` operations yield NaN for the
name and the fillna yields `""` for the number.  (`\d` is modelled on the
ASCII digits; the cells reaching this step are sanitized.) -/
def splitPersonName (c : Cell) : Cell × Cell :=
  match c with
  | .pystr s =>
    let r1 := s.reverse.dropWhile pySpace
    let ds := r1.takeWhile isDigitChar
    if 8 ≤ ds.length then
      (.pystr (stripWs ((r1.dropWhile isDigitChar).reverse)), .pystr ds.reverse)
    else (.pystr (stripWs s), .pystr [])
  | _ => (.pynan, .pystr [])

/-- Scan for the first maximal digit run of length ≥ 5 (the semantics of
`str.extract(r"(\d{5,})")`): `cur` holds the digits of the current run in
reverse. -/
def firstDigitRun5Aux (cur : Text) : Text → Text
  | [] => if 5 ≤ cur.length then cur.reverse else []
  | c :: rest =>
    if isDigitChar c then firstDigitRun5Aux (c :: cur) rest
    else if 5 ≤ cur.length then cur.reverse
    else firstDigitRun5Aux [] rest

/-- The first run of ≥5 consecutive digits of `l`, or `[]` if none. -/
def firstDigitRun5 (l : Text) : Text := firstDigitRun5Aux [] l

/-- The Card Number step:
`.astype(str).str.strip().str.extract(r"(\d{5,})", expand=False).fillna("")`. -/
def extractCardNumber (c : Cell) : Cell :=
  .pystr (firstDigitRun5 (stripWs (astypeStr c)))

/-- The Passport Number stringification `.astype(str).str.strip()`. -/
def passportStrip (c : Cell) : Text := stripWs (astypeStr c)

/-- The Contract Type normalization `.astype(str).str.strip().str.title()`. -/
def contractNorm (c : Cell) : Text := titleCase (stripWs (astypeStr c))

/-- Numeric value of an ASCII digit string. -/
def digitsVal (l : Text) : Nat := l.foldl (fun a c => a * 10 + (c.toNat - 48)) 0

/-- Read an optional sign. -/
def readSignInt : Text → Int × Text
  | c :: rest =>
    if c = Char.ofNat 0x2D then (-1, rest)
    else if c = Char.ofNat 0x2B then (1, rest)
    else (1, c :: rest)
  | [] => (1, [])

/-- `int(s)` as used by `astype("Int64")` on an already-stripped string:
an optional sign followed by one or more digits. -/
def pyIntParse (l : Text) : Option Int :=
  let sr := readSignInt l
  if sr.2.isEmpty then none
  else if sr.2.all isDigitChar then some (sr.1 * (digitsVal sr.2 : Int))
  else none

/-- The syntactic decomposition of a Python float literal: sign, integer
digits, fractional digits, signed exponent. -/
structure FloatParts where
  sign : Int
  intDigits : Text
  fracDigits : Text
  exp : Int
deriving DecidableEq, Repr

/-- The grammar of `float(s)` on an already-stripped string: optional sign,
digits with optional fraction (at least one digit overall), optional
exponent.  (The special spellings `inf`/`nan` and digit-group underscores are
accepted by Python but are irrelevant to every claim.) -/
def pyFloatParse (s : Text) : Option FloatParts :=
  let sr := readSignInt s
  let ip := sr.2.takeWhile isDigitChar
  let s2 := sr.2.dropWhile isDigitChar
  let fr : Text × Text :=
    match s2 with
    | c :: r =>
      if c = Char.ofNat 0x2E then (r.takeWhile isDigitChar, r.dropWhile isDigitChar)
      else ([], s2)
    | [] => ([], [])
  if ip.isEmpty && fr.1.isEmpty then none
  else
    match fr.2 with
    | [] => some ⟨sr.1, ip, fr.1, 0⟩
    | c :: r =>
      if c = Char.ofNat 0x65 ∨ c = Char.ofNat 0x45 then
        let er := readSignInt r
        let ed := er.2.takeWhile isDigitChar
        let r2 := er.2.dropWhile isDigitChar
        if ed.isEmpty || !r2.isEmpty then none
        else some ⟨sr.1, ip, fr.1, er.1 * (digitsVal ed : Int)⟩
      else none

/-- The rational value denoted by a parsed float literal (binary floating
point rounding is abstracted by ℚ). -/
def partsVal (p : FloatParts) : ℚ :=
  (p.sign : ℚ) *
    ((digitsVal p.intDigits : ℚ) + (digitsVal p.fracDigits : ℚ) / (10 : ℚ) ^ p.fracDigits.length) *
    (10 : ℚ) ^ p.exp

/-- `float(s)` on an already-stripped string, modelled over ℚ. -/
def pyFloat (s : Text) : Option ℚ := (pyFloatParse s).map partsVal

/-- The Total Salary key of one cell:
`.astype(str).str.replace(",", "", regex=False).str.strip()`. -/
def salKey (c : Cell) : Text :=
  stripWs ((astypeStr c).filter (fun ch => ch != Char.ofNat 0x2C))

/-- `.replace("", pd.NA).astype(float)` on one Total Salary cell: empty
becomes missing, a parsed value becomes a number, anything else raises
(`ValueError`), modelled as `Except.error`. -/
def convertSalaryCell (c : Cell) : Except Unit (Option ℚ) :=
  let t := salKey c
  if t.isEmpty then .ok none
  else
    match pyFloatParse t with
    | some p => .ok (some (partsVal p))
    | none => .error ()

/-- `astype(float)` over the whole Total Salary column: any unparsable cell
fails the conversion. -/
def convertTotalSalary : List Cell → Except Unit (List (Option ℚ))
  | [] => .ok []
  | c :: rest => do
    let v ← convertSalaryCell c
    let vs ← convertTotalSalary rest
    pure (v :: vs)

/-- `.astype(str).str.strip().replace("", pd.NA).astype("Int64")` on one
Row No cell. -/
def toInt64Cell (c : Cell) : Except Unit (Option Int) :=
  let t := stripWs (astypeStr c)
  if t.isEmpty then .ok none
  else
    match pyIntParse t with
    | some n => .ok (some n)
    | none => .error ()

/-- The Row No `Int64` conversion over the whole column. -/
def toInt64Col : List Cell → Except Unit (List (Option Int))
  | [] => .ok []
  | c :: rest => do
    let v ← toInt64Cell c
    let vs ← toInt64Col rest
    pure (v :: vs)

/-- A pandas DataFrame as the pipelines use it: named columns over rows of
cells.  Column access by name uses the first matching label; the frames the
pipelines build after coercion carry canonical, duplicate-free headers
(pandas' duplicate-label behaviour, which raises inside the `.str`
accessors, is outside this model). -/
structure Df where
  header : List Text
  rows : List (List Cell)
deriving DecidableEq, Repr

/-- Index of a column label (first occurrence). -/
def colIdx (header : List Text) (name : Text) : Nat :=
  header.findIdx (fun h => h == name)

/-- `name in df.columns`. -/
def hasCol (df : Df) (name : Text) : Bool := df.header.contains name

/-- `df[name]` as a cell list. -/
def getCol (df : Df) (name : Text) : List Cell :=
  df.rows.map (fun r => r.getD (colIdx df.header name) .pynone)

/-- `df[name] = vals` on an existing column. -/
def setCol (df : Df) (name : Text) (vals : List Cell) : Df :=
  ⟨df.header, (df.rows.zip vals).map (fun rv => rv.1.set (colIdx df.header name) rv.2)⟩

/-- `df[name] = vals` when `name` may be new: replace if present, else append
on the right. -/
def addCol (df : Df) (name : Text) (vals : List Cell) : Df :=
  if df.header.contains name then setCol df name vals
  else ⟨df.header ++ [name], (df.rows.zip vals).map (fun rv => rv.1 ++ [rv.2])⟩

/-- `df[names]` — column projection in the given order. -/
def selectCols (df : Df) (names : List Text) : Df :=
  ⟨names, df.rows.map (fun r => names.map (fun n => r.getD (colIdx df.header n) .pynone))⟩

/-- `df[df[name].apply(p)]`-style row filter keyed on one column. -/
def filterByCol (df : Df) (name : Text) (p : Cell → Bool) : Df :=
  ⟨df.header, df.rows.filter (fun r => p (r.getD (colIdx df.header name) .pynone))⟩

/-- `df[df.apply(p, axis=1)]` — row filter over whole rows. -/
def filterRows (df : Df) (p : List Cell → Bool) : Df :=
  ⟨df.header, df.rows.filter p⟩

/-- `df.map(clean_cell)` / `df.applymap(clean_cell)`. -/
def mapCells (df : Df) (f : Cell → Cell) : Df :=
  ⟨df.header, df.rows.map (fun r => r.map f)⟩

/-- `df.dropna(how="all")` followed by the all-blank-string row filter. -/
def dropEmptyRows (df : Df) : Df :=
  ⟨df.header,
   (df.rows.filter (fun r => !rowAllNa r)).filter (fun r => !rowBlankStr r)⟩

/-- The error taxonomy of a pipeline run. -/
inductive PipeError where
  | noTablesFound
  | typeError
  | conversionError
deriving DecidableEq, Repr

/-- The result of the Emirati pipeline: the cleaned string table plus the
typed columns that `astype("Int64")` / `astype(float)` substitute in place
(recorded alongside; `none` when the column is absent). -/
structure EmOut where
  table : Df
  rowNo : Option (List (Option Int))
  totalSalary : Option (List (Option ℚ))
deriving DecidableEq, Repr

/-- `to_clean_dataframe_emirati` (app.py), from the extracted raw rows on
(PDF parsing is the external boundary): raise `NoTablesFound` on an empty
extraction, split header/body, coerce the header, align rows, drop meta and
residual header rows, keep canonical columns, clean every cell, validate
Row No / Person Code / Sex, drop empty rows, clean the column labels, then
type Row No (`Int64`), Person Code (string) and Total Salary (float). -/
def to_clean_dataframe_emirati (nf : Text → Text) (rows : List (List Cell)) :
    Except PipeError EmOut :=
  if rows.isEmpty then .error .noTablesFound
  else
    let hb := splitHeaderBody em_is_header_row rows
    let header := em_coerce_header nf (hb.1.getD [])
    let body := hb.2.map (alignRowApp header.length)
    let df1 : Df := ⟨header, drop_meta_headers em_is_header_row body⟩
    let keep := EM_EXPECTED.filter (fun c => header.contains c)
    let df2 := if keep.isEmpty then df1 else selectCols df1 keep
    let df3 := mapCells df2 (clean_cell nf)
    let df4 :=
      if hasCol df3 "Row No".data then
        filterByCol df3 "Row No".data (fun c => pyStrIsdigit (stripWs (astypeStr c)))
      else df3
    let df5 :=
      if hasCol df4 "Person Code".data then
        filterByCol df4 "Person Code".data (fun c =>
          let t := stripWs (astypeStr c)
          pyStrIsdigit t && 10 ≤ t.length)
      else df4
    let df6 :=
      if hasCol df5 "Sex".data then
        let dfS := setCol df5 "Sex".data
          ((getCol df5 "Sex".data).map (fun c => .pystr (titleCase (stripWs (astypeStr c)))))
        filterByCol dfS "Sex".data (fun c =>
          c == Cell.pystr "Male".data || c == Cell.pystr "Female".data)
      else df5
    let df7 := dropEmptyRows df6
    let df8 : Df := ⟨df7.header.map (cleanString nf), df7.rows⟩
    let rowNoRes : Except Unit (Option (List (Option Int))) :=
      if hasCol df8 "Row No".data then
        (toInt64Col (getCol df8 "Row No".data)).map some
      else .ok none
    let df9 :=
      if hasCol df8 "Person Code".data then
        setCol df8 "Person Code".data
          ((getCol df8 "Person Code".data).map (fun c => .pystr (stripWs (astypeStr c))))
      else df8
    let salRes : Except Unit (Option (List (Option ℚ))) :=
      if hasCol df9 "Total Salary".data then
        (convertTotalSalary (getCol df9 "Total Salary".data)).map some
      else .ok none
    match rowNoRes with
    | .error _ => .error .conversionError
    | .ok rn =>
      match salRes with
      | .error _ => .error .conversionError
      | .ok sal => .ok ⟨df9, rn, sal⟩

/-- The table-processing of `main` (convert.py), from the extracted raw rows
to the frame written to Excel: the same steps as the Emirati app pipeline, in
convert.py's order (keep columns → residual header filter → clean → drop
empty rows → clean labels → meta filter → validations) and with no typed
conversions. -/
def convert_main (nf : Text → Text) (rows : List (List Cell)) :
    Except PipeError Df :=
  if rows.isEmpty then .error .noTablesFound
  else
    let hb := splitHeaderBody em_is_header_row rows
    let header := em_coerce_header nf (hb.1.getD [])
    let body := align_to_header hb.2 header.length
    let df0 : Df := ⟨header, body⟩
    let keep := EM_EXPECTED.filter (fun c => header.contains c)
    let df1 := if keep.isEmpty then df0 else selectCols df0 keep
    let df2 := filterRows df1 (fun r => !em_is_header_row r)
    let df3 := mapCells df2 (clean_cell nf)
    let df4 := dropEmptyRows df3
    let df5 : Df := ⟨df4.header.map (cleanString nf), df4.rows⟩
    let df6 := filterRows df5 (fun r => !is_meta_row_convert r)
    let df7 :=
      if hasCol df6 "Row No".data then
        filterByCol df6 "Row No".data (fun c => pyStrIsdigit (stripWs (astypeStr c)))
      else df6
    let df8 :=
      if hasCol df7 "Person Code".data then
        filterByCol df7 "Person Code".data (fun c =>
          let t := stripWs (astypeStr c)
          pyStrIsdigit t && 10 ≤ t.length)
      else df7
    let df9 :=
      if hasCol df8 "Sex".data then
        let dfS := setCol df8 "Sex".data
          ((getCol df8 "Sex".data).map (fun c => .pystr (titleCase (stripWs (astypeStr c)))))
        filterByCol dfS "Sex".data (fun c =>
          c == Cell.pystr "Male".data || c == Cell.pystr "Female".data)
      else df8
    .ok df9

/-- The Passport Number step of the non-Emirati pipeline:
`df["Passport Number"] = df["Passport Number"].astype(str).str.strip()`
followed by `df = df[df["Passport Number"] != ""]`, when the column exists. -/
def nePassportStep (df : Df) : Df :=
  if hasCol df "Passport Number".data then
    let dfP := setCol df "Passport Number".data
      ((getCol df "Passport Number".data).map (fun c => .pystr (passportStrip c)))
    filterByCol dfP "Passport Number".data (fun c => c != Cell.pystr [])
  else df

/-- The column reordering of the non-Emirati pipeline: remove
`Person Number` and re-insert it immediately after `Person Name`. -/
def placePersonNumber (cols : List Text) : List Text :=
  let c2 := cols.erase "Person Number".data
  c2.insertIdx (colIdx c2 "Person Name".data + 1) "Person Number".data

/-- `to_clean_dataframe_non_emirati` (app.py), from the extracted raw rows
on: split, coerce (a non-string header label raises `TypeError` inside
`strip_bilingual_noise`), align, drop meta/header rows, keep canonical
columns, clean, split the trailing ≥8-digit run out of Person Name, place
Person Number after Person Name, validate Passport Number / Contract Type,
extract Card Number, drop empty rows, clean labels, re-strip the two
identifier columns. -/
def to_clean_dataframe_non_emirati (nf : Text → Text) (rows : List (List Cell)) :
    Except PipeError Df :=
  if rows.isEmpty then .error .noTablesFound
  else
    let hb := splitHeaderBody ne_is_header_row rows
    match ne_coerce_header nf (hb.1.getD []) with
    | .error _ => .error .typeError
    | .ok header =>
      let body := hb.2.map (alignRowApp header.length)
      let df1 : Df := ⟨header, drop_meta_headers ne_is_header_row body⟩
      let keep := NE_EXPECTED.filter (fun c => header.contains c)
      let df2 := if keep.isEmpty then df1 else selectCols df1 keep
      let df3 := mapCells df2 (clean_cell nf)
      let df4 :=
        if hasCol df3 "Person Name".data then
          let split := (getCol df3 "Person Name".data).map splitPersonName
          let dfA := addCol df3 "Person Number".data (split.map Prod.snd)
          setCol dfA "Person Name".data (split.map Prod.fst)
        else df3
      let df5 :=
        if hasCol df4 "Person Number".data then
          if df4.header.contains "Person Name".data then
            selectCols df4 (placePersonNumber df4.header)
          else df4
        else df4
      let df6 := nePassportStep df5
      let df7 :=
        if hasCol df6 "Contract Type".data then
          let dfC := setCol df6 "Contract Type".data
            ((getCol df6 "Contract Type".data).map (fun c => .pystr (contractNorm c)))
          filterByCol dfC "Contract Type".data (fun c =>
            c == Cell.pystr [] || c == Cell.pystr "Limited".data ||
              c == Cell.pystr "Unlimited".data)
        else df6
      let df8 :=
        if hasCol df7 "Card Number".data then
          setCol df7 "Card Number".data ((getCol df7 "Card Number".data).map extractCardNumber)
        else df7
      let df9 := dropEmptyRows df8
      let df10 : Df := ⟨df9.header.map (cleanString nf), df9.rows⟩
      let df11 :=
        if hasCol df10 "Passport Number".data then
          setCol df10 "Passport Number".data
            ((getCol df10 "Passport Number".data).map (fun c => .pystr (stripWs (astypeStr c))))
        else df10
      let df12 :=
        if hasCol df11 "Card Number".data then
          setCol df11 "Card Number".data
            ((getCol df11 "Card Number".data).map (fun c => .pystr (stripWs (astypeStr c))))
        else df11
      .ok df12

/-- A header row whose labels are exactly the canonical Emirati columns. -/
def emHeaderRow : List Cell := EM_EXPECTED.map Cell.pystr

/-- A well-formed Emirati data row except that Total Salary is unparsable. -/
def emBadSalaryRow : List Cell :=
  [.pystr "1".data, .pystr "1234567890".data, .pystr "John".data, .pystr "C1".data,
   .pystr "01/01/2020".data, .pystr "01/01/2030".data, .pystr "Cook".data,
   .pystr "Male".data, .pystr "abc".data]

/-- Every space character of `l` is the plain ASCII space. -/
def spacesNormed (l : Text) : Prop := ∀ c ∈ l, pySpace c = true → c = spaceChar

/-- No two adjacent whitespace characters. -/
def noTwoSpacesB : Text → Bool
  | a :: b :: rest => (!(pySpace a && pySpace b)) && noTwoSpacesB (b :: rest)
  | _ => true

/-- The first character, if any, is not whitespace. -/
def headNotSpace (l : Text) : Prop := ∀ c, l.head? = some c → pySpace c = false

/-- No suffix of `l` starts with five consecutive ASCII digits, i.e. `l`
contains no run of 5 consecutive digits. -/
def noRun5 (l : Text) : Bool :=
  l.tails.all (fun t => (t.takeWhile isDigitChar).length < 5)

/-- The last character, if any, is not an ASCII digit. -/
def lastNotDigit (l : Text) : Bool :=
  match l.getLast? with
  | some c => !isDigitChar c
  | none => true

/-- The first character, if any, is not an ASCII digit. -/
def headNotDigit (l : Text) : Bool :=
  match l.head? with
  | some c => !isDigitChar c
  | none => true

/-- The value the Total Salary conversion assigns to one parsable cell. -/
def salVal (c : Cell) : Option ℚ :=
  if salKey c = [] then none else (pyFloatParse (salKey c)).map partsVal

/-! ## Whitespace lemmas for the sanitizer -/

theorem collapseWsAux_space_true {x : Char} {rest : Text} (hx : pySpace x = true) :
    collapseWsAux true (x :: rest) = collapseWsAux true rest := by
  simp [collapseWsAux, hx]

theorem collapseWsAux_space_false {x : Char} {rest : Text} (hx : pySpace x = true) :
    collapseWsAux false (x :: rest) = spaceChar :: collapseWsAux true rest := by
  simp [collapseWsAux, hx]

theorem collapseWsAux_nonspace {x : Char} {rest : Text} (b : Bool)
    (hx : pySpace x = false) :
    collapseWsAux b (x :: rest) = x :: collapseWsAux false rest := by
  simp [collapseWsAux, hx]

theorem mem_collapseWsAux {c : Char} {b : Bool} {l : Text}
    (h : c ∈ collapseWsAux b l) : c = spaceChar ∨ c ∈ l := by
  induction l generalizing b with
  | nil => simp [collapseWsAux] at h
  | cons x rest ih =>
    cases hx : pySpace x with
    | true =>
      cases b with
      | true =>
        rw [collapseWsAux_space_true hx] at h
        rcases ih h with h1 | h1
        · exact Or.inl h1
        · exact Or.inr (List.mem_cons_of_mem _ h1)
      | false =>
        rw [collapseWsAux_space_false hx] at h
        rcases List.mem_cons.mp h with h1 | h1
        · exact Or.inl h1
        · rcases ih h1 with h2 | h2
          · exact Or.inl h2
          · exact Or.inr (List.mem_cons_of_mem _ h2)
    | false =>
      rw [collapseWsAux_nonspace b hx] at h
      rcases List.mem_cons.mp h with h1 | h1
      · exact Or.inr (h1 ▸ List.mem_cons_self x rest)
      · rcases ih h1 with h2 | h2
        · exact Or.inl h2
        · exact Or.inr (List.mem_cons_of_mem _ h2)

theorem dropTrailWs_cons (x : Char) (rest : Text) :
    dropTrailWs (x :: rest) =
      if (dropTrailWs rest).isEmpty && pySpace x then [] else x :: dropTrailWs rest :=
  rfl

theorem mem_dropTrailWs {c : Char} {l : Text} (h : c ∈ dropTrailWs l) : c ∈ l := by
  induction l with
  | nil => simp [dropTrailWs] at h
  | cons x rest ih =>
    rw [dropTrailWs_cons] at h
    by_cases hc : (dropTrailWs rest).isEmpty && pySpace x
    · simp [hc] at h
    · rw [if_neg hc] at h
      rcases List.mem_cons.mp h with h1 | h1
      · exact h1 ▸ List.mem_cons_self x rest
      · exact List.mem_cons_of_mem _ (ih h1)

theorem mem_stripWs {c : Char} {l : Text} (h : c ∈ stripWs l) : c ∈ l :=
  (List.dropWhile_sublist pySpace (l := l)).mem (mem_dropTrailWs h)

theorem mem_cleanString {c : Char} {nf : Text → Text} {s : Text}
    (h : c ∈ cleanString nf s) :
    isZeroWidth c = false ∧ isArabicBlock c = false ∧ isIllegalXlsx c = false := by
  have h1 := mem_stripWs h
  rcases mem_collapseWsAux h1 with h2 | h2
  · subst h2; refine ⟨by decide, by decide, by decide⟩
  · rcases List.mem_filter.mp h2 with ⟨h3, hil⟩
    rcases List.mem_filter.mp h3 with ⟨h4, har⟩
    rcases List.mem_filter.mp h4 with ⟨_, hzw⟩
    exact ⟨by simpa using hzw, by simpa using har, by simpa using hil⟩

theorem bool_eq_false {b : Bool} (h : ¬(b = true)) : b = false := by
  cases b with
  | false => rfl
  | true => exact absurd rfl h

theorem spacesNormed_collapseWsAux {b : Bool} {l : Text} :
    spacesNormed (collapseWsAux b l) := by
  induction l generalizing b with
  | nil => intro c hc _; simp [collapseWsAux] at hc
  | cons x rest ih =>
    intro c hc hsp
    cases hx : pySpace x with
    | true =>
      cases b with
      | true =>
        rw [collapseWsAux_space_true hx] at hc
        exact ih c hc hsp
      | false =>
        rw [collapseWsAux_space_false hx] at hc
        rcases List.mem_cons.mp hc with h1 | h1
        · exact h1
        · exact ih c h1 hsp
    | false =>
      rw [collapseWsAux_nonspace b hx] at hc
      rcases List.mem_cons.mp hc with h1 | h1
      · subst h1; rw [hsp] at hx; cases hx
      · exact ih c h1 hsp

theorem headNotSpace_collapseWsAux_true {l : Text} :
    headNotSpace (collapseWsAux true l) := by
  induction l with
  | nil => intro c hc; cases hc
  | cons x rest ih =>
    intro c hc
    cases hx : pySpace x with
    | true => rw [collapseWsAux_space_true hx] at hc; exact ih c hc
    | false =>
      rw [collapseWsAux_nonspace true hx] at hc
      simp only [List.head?_cons, Option.some.injEq] at hc
      exact hc ▸ hx

theorem collapseWsAux_true_eq_false {l : Text} (h : headNotSpace l) :
    collapseWsAux true l = collapseWsAux false l := by
  cases l with
  | nil => rfl
  | cons x rest =>
    have hx := h x rfl
    rw [collapseWsAux_nonspace true hx, collapseWsAux_nonspace false hx]

theorem noTwoSpacesB_cons_cons (a b : Char) (rest : Text) :
    noTwoSpacesB (a :: b :: rest) =
      ((!(pySpace a && pySpace b)) && noTwoSpacesB (b :: rest)) := rfl

theorem noTwoSpacesB_tail {a : Char} {l : Text} (h : noTwoSpacesB (a :: l) = true) :
    noTwoSpacesB l = true := by
  cases l with
  | nil => rfl
  | cons b rest => rw [noTwoSpacesB_cons_cons] at h; exact (Bool.and_eq_true _ _ ▸ h).2

theorem noTwoSpacesB_collapseWsAux {l : Text} (b : Bool) :
    noTwoSpacesB (collapseWsAux b l) = true := by
  induction l generalizing b with
  | nil => rfl
  | cons x rest ih =>
    cases hx : pySpace x with
    | true =>
      cases b with
      | true => rw [collapseWsAux_space_true hx]; exact ih true
      | false =>
        rw [collapseWsAux_space_false hx]
        cases e : collapseWsAux true rest with
        | nil => rfl
        | cons y t =>
          have hy : pySpace y = false :=
            headNotSpace_collapseWsAux_true y (by rw [e]; rfl)
          have h2 : noTwoSpacesB (y :: t) = true := by rw [← e]; exact ih true
          rw [noTwoSpacesB_cons_cons, h2, hy]
          simp
    | false =>
      rw [collapseWsAux_nonspace b hx]
      cases e : collapseWsAux false rest with
      | nil => rfl
      | cons y t =>
        have h2 : noTwoSpacesB (y :: t) = true := by rw [← e]; exact ih false
        rw [noTwoSpacesB_cons_cons, h2, hx]
        simp

theorem collapseWsAux_false_fixed {l : Text} (h1 : spacesNormed l)
    (h2 : noTwoSpacesB l = true) : collapseWsAux false l = l := by
  induction l with
  | nil => rfl
  | cons x rest ih =>
    have hrest1 : spacesNormed rest := fun c hc hs => h1 c (List.mem_cons_of_mem _ hc) hs
    have hrest2 := noTwoSpacesB_tail h2
    cases hx : pySpace x with
    | true =>
      have hx20 : x = spaceChar := h1 x (List.mem_cons_self x rest) hx
      rw [collapseWsAux_space_false hx, ← hx20]
      congr 1
      cases rest with
      | nil => rfl
      | cons y t =>
        have hy : pySpace y = false := by
          rw [noTwoSpacesB_cons_cons] at h2
          rcases (Bool.and_eq_true _ _ ▸ h2 : _ ∧ _) with ⟨hp, _⟩
          rw [hx] at hp
          cases hyv : pySpace y with
          | false => rfl
          | true => rw [hyv] at hp; simp at hp
        rw [collapseWsAux_true_eq_false (fun c hc => by
          simp only [List.head?_cons, Option.some.injEq] at hc
          exact hc ▸ hy)]
        exact ih hrest1 hrest2
    | false =>
      rw [collapseWsAux_nonspace false hx]
      congr 1
      exact ih hrest1 hrest2

theorem dropTrailWs_idem (l : Text) : dropTrailWs (dropTrailWs l) = dropTrailWs l := by
  induction l with
  | nil => rfl
  | cons x rest ih =>
    rw [dropTrailWs_cons]
    by_cases hc : (dropTrailWs rest).isEmpty && pySpace x
    · rw [if_pos hc]; rfl
    · rw [if_neg hc, dropTrailWs_cons, ih, if_neg hc]

theorem noTwoSpacesB_dropWhile {l : Text} (h : noTwoSpacesB l = true) :
    noTwoSpacesB (l.dropWhile pySpace) = true := by
  induction l with
  | nil => exact h
  | cons x rest ih =>
    rw [List.dropWhile_cons]
    by_cases hx : pySpace x = true
    · rw [if_pos hx]; exact ih (noTwoSpacesB_tail h)
    · rw [if_neg hx]; exact h

theorem noTwoSpacesB_dropTrailWs {l : Text} (h : noTwoSpacesB l = true) :
    noTwoSpacesB (dropTrailWs l) = true := by
  induction l with
  | nil => exact h
  | cons x rest ih =>
    rw [dropTrailWs_cons]
    by_cases hc : (dropTrailWs rest).isEmpty && pySpace x
    · rw [if_pos hc]; rfl
    · rw [if_neg hc]
      have ht := ih (noTwoSpacesB_tail h)
      cases e : dropTrailWs rest with
      | nil => rfl
      | cons y t =>
        rw [e] at ht
        rw [noTwoSpacesB_cons_cons, ht]
        cases rest with
        | nil => simp [dropTrailWs] at e
        | cons b rest2 =>
          have hyb : y = b := by
            rw [dropTrailWs_cons] at e
            by_cases hcb : (dropTrailWs rest2).isEmpty && pySpace b
            · rw [if_pos hcb] at e; cases e
            · rw [if_neg hcb] at e; exact (List.cons.inj e).1.symm
          rw [noTwoSpacesB_cons_cons] at h
          rcases (Bool.and_eq_true _ _ ▸ h : _ ∧ _) with ⟨hp, _⟩
          rw [hyb]
          simp [hp]

theorem headNotSpace_dropWhile (l : Text) : headNotSpace (l.dropWhile pySpace) := by
  induction l with
  | nil => intro c hc; cases hc
  | cons x rest ih =>
    rw [List.dropWhile_cons]
    by_cases hx : pySpace x = true
    · rw [if_pos hx]; exact ih
    · rw [if_neg hx]
      intro c hc
      simp only [List.head?_cons, Option.some.injEq] at hc
      exact hc ▸ bool_eq_false hx

theorem headNotSpace_dropTrailWs {l : Text} (h : headNotSpace l) :
    headNotSpace (dropTrailWs l) := by
  cases l with
  | nil => intro c hc; cases hc
  | cons x rest =>
    rw [dropTrailWs_cons]
    by_cases hc : (dropTrailWs rest).isEmpty && pySpace x
    · rw [if_pos hc]; intro c hcc; cases hcc
    · rw [if_neg hc]
      intro c hcc
      simp only [List.head?_cons, Option.some.injEq] at hcc
      exact hcc ▸ h x rfl

theorem headNotSpace_stripWs (l : Text) : headNotSpace (stripWs l) :=
  headNotSpace_dropTrailWs (headNotSpace_dropWhile l)

theorem dropWhile_eq_self_of_headNotSpace {l : Text} (h : headNotSpace l) :
    l.dropWhile pySpace = l := by
  cases l with
  | nil => rfl
  | cons x rest => rw [List.dropWhile_cons]; simp [h x rfl]

theorem stripWs_collapseWs_idem (z : Text) :
    stripWs (collapseWs (stripWs (collapseWs z))) = stripWs (collapseWs z) := by
  have hsn : spacesNormed (stripWs (collapseWs z)) := fun c hc hs =>
    spacesNormed_collapseWsAux c (mem_stripWs hc) hs
  have hnt : noTwoSpacesB (stripWs (collapseWs z)) = true :=
    noTwoSpacesB_dropTrailWs (noTwoSpacesB_dropWhile (noTwoSpacesB_collapseWsAux false))
  have hhd : headNotSpace (stripWs (collapseWs z)) := headNotSpace_stripWs _
  have hcy : collapseWs (stripWs (collapseWs z)) = stripWs (collapseWs z) :=
    collapseWsAux_false_fixed hsn hnt
  rw [hcy]
  show dropTrailWs ((stripWs (collapseWs z)).dropWhile pySpace) = stripWs (collapseWs z)
  rw [dropWhile_eq_self_of_headNotSpace hhd]
  show dropTrailWs (dropTrailWs ((collapseWs z).dropWhile pySpace)) = _
  rw [dropTrailWs_idem]
  rfl

theorem cleanString_idem {nf : Text → Text} {s : Text}
    (h : nf (cleanString nf s) = cleanString nf s) :
    cleanString nf (cleanString nf s) = cleanString nf s := by
  have hprops : ∀ c ∈ cleanString nf s,
      (!isZeroWidth c) = true ∧ (!isArabicBlock c) = true ∧ (!isIllegalXlsx c) = true := by
    intro c hc
    rcases mem_cleanString hc with ⟨h1, h2, h3⟩
    exact ⟨by simp [h1], by simp [h2], by simp [h3]⟩
  show stripWs (collapseWs
      ((((nf (cleanString nf s)).filter (fun c => !isZeroWidth c)).filter
          (fun c => !isArabicBlock c)).filter
        (fun c => !isIllegalXlsx c))) = cleanString nf s
  rw [h]
  rw [List.filter_eq_self.mpr (fun a ha => (hprops a ha).1)]
  rw [List.filter_eq_self.mpr (fun a ha => (hprops a ha).2.1)]
  rw [List.filter_eq_self.mpr (fun a ha => (hprops a ha).2.2)]
  show stripWs (collapseWs (stripWs (collapseWs _))) = _
  rw [stripWs_collapseWs_idem]
  rfl

/-- C1 (counterexample).  The sanitizer is not idempotent as claimed: on the
input `U+0065 U+0001 U+0301` (an `e`, an Excel-illegal control character, a
combining acute accent) the first pass removes the control character, leaving
`e` followed by the combining accent; the second pass's NFKC normalization
then composes this pair into `é`, so sanitizing the already-sanitized value
changes it again. -/
theorem c1_sanitize_idempotent_counterexample :
    clean_cell nfkcModel (clean_cell nfkcModel
        (.pystr [Char.ofNat 0x65, Char.ofNat 0x1, Char.ofNat 0x301])) ≠
      clean_cell nfkcModel (.pystr [Char.ofNat 0x65, Char.ofNat 0x1, Char.ofNat 0x301]) := by
  decide

/-- C1 (amended).  `clean_cell` is idempotent on every input whose sanitized
value is already NFKC-normalized (in particular on all null/NaN inputs and on
all strings whose characters have no pending canonical composition); removing
zero-width / Arabic / control characters between normalization and the later
steps is what can expose a new composition and break idempotence. -/
theorem c1_sanitize_idempotent_amended (nf : Text → Text) (x : Cell)
    (h : ∀ s, clean_cell nf x = .pystr s → nf s = s) :
    clean_cell nf (clean_cell nf x) = clean_cell nf x := by
  cases x with
  | pynone => rfl
  | pynan => rfl
  | pystr s =>
    show Cell.pystr (cleanString nf (cleanString nf s)) = Cell.pystr (cleanString nf s)
    rw [cleanString_idem (h (cleanString nf s) rfl)]

theorem c1_sanitize_idempotent_witness :
    clean_cell nfkcModel (clean_cell nfkcModel (.pystr "a  b".data)) =
      clean_cell nfkcModel (.pystr "a  b".data) :=
  c1_sanitize_idempotent_amended nfkcModel (.pystr "a  b".data)
    (fun s hs => by
      have h2 : cleanString nfkcModel "a  b".data = s := Cell.pystr.inj hs
      rw [← h2]; decide)

/-- C2.  For every normalization function and every string input, the
sanitizer's output contains no code point in any of the ranges
U+0600–06FF, U+0750–077F, U+08A0–08FF, U+FB50–FDFF, U+FE70–FEFF: the
Arabic-block filter runs after normalization, and the later steps only delete
characters or introduce the plain ASCII space. -/
theorem c2_sanitizer_removes_arabic (nf : Text → Text) (s : Text) :
    (cleanString nf s).all (fun c => !isArabicBlock c) = true := by
  rw [List.all_eq_true]
  intro c hc
  have h := (mem_cleanString hc).2.1
  simp [h]

theorem ne_resolve_all_length {nf : Text → Text} :
    ∀ {l : List Cell} {v : List Text}, ne_resolve_all nf l = .ok v → v.length = l.length := by
  intro l
  induction l with
  | nil =>
    intro v h
    simp only [ne_resolve_all] at h
    cases h
    rfl
  | cons c rest ih =>
    intro v h
    simp only [ne_resolve_all] at h
    cases hc : ne_resolve_label nf c with
    | error e => rw [hc] at h; cases h
    | ok t =>
      rw [hc] at h
      cases hr : ne_resolve_all nf rest with
      | error e => rw [hr] at h; cases h
      | ok ts =>
        rw [hr] at h
        cases h
        simp [ih hr]

theorem alignRow_eq (n : Nat) (r : List Cell) :
    (if r.length < n then r ++ List.replicate (n - r.length) (Cell.pystr [])
     else if n < r.length then r.take n
     else r) = alignRowApp n r := by
  by_cases h1 : r.length < n
  · rw [if_pos h1]
    unfold alignRowApp
    rw [List.take_of_length_le]
    rw [List.length_append, List.length_replicate]
    omega
  · rw [if_neg h1]
    have h0 : n - r.length = 0 := by omega
    unfold alignRowApp
    rw [h0, List.replicate_zero, List.append_nil]
    by_cases h2 : n < r.length
    · rw [if_pos h2]
    · rw [if_neg h2]
      have : r.length = n := by omega
      rw [← this, List.take_length]

/-- C4.  Row alignment: every row produced by `align_to_header` has exactly
the header's length; a short row is padded on the right with empty-string
cells, a long row is truncated on the right, a row of exactly the header's
length is unchanged; and convert.py's `align_to_header` computes the same
row transformation as app.py's inline pad-and-slice expression. -/
theorem c4_row_alignment (n : Nat) (body : List (List Cell)) :
    (∀ r ∈ align_to_header body n, r.length = n) ∧
    align_to_header body n = body.map (alignRowApp n) ∧
    (∀ r : List Cell,
      (r.length < n → alignRowApp n r = r ++ List.replicate (n - r.length) (Cell.pystr [])) ∧
      (n < r.length → alignRowApp n r = r.take n) ∧
      (r.length = n → alignRowApp n r = r)) := by
  have heq : align_to_header body n = body.map (alignRowApp n) := by
    unfold align_to_header
    exact List.map_congr_left (fun r _ => alignRow_eq n r)
  refine ⟨?_, heq, ?_⟩
  · intro r hr
    rw [heq] at hr
    rcases List.mem_map.mp hr with ⟨r0, _, hval⟩
    subst hval
    unfold alignRowApp
    rw [List.length_take, List.length_append, List.length_replicate]
    omega
  · intro r
    refine ⟨?_, ?_, ?_⟩
    · intro h; rw [← alignRow_eq, if_pos h]
    · intro h
      have h1 : ¬(r.length < n) := by omega
      rw [← alignRow_eq, if_neg h1, if_pos h]
    · intro h
      have h1 : ¬(r.length < n) := by omega
      have h2 : ¬(n < r.length) := by omega
      rw [← alignRow_eq, if_neg h1, if_neg h2]

theorem c4_row_alignment_witness :
    ([Cell.pystr "a".data, Cell.pystr [], Cell.pystr []] : List Cell).length = 3 ∧
    alignRowApp 2 [Cell.pystr "x".data, Cell.pystr "y".data, Cell.pystr "z".data] =
      [Cell.pystr "x".data, Cell.pystr "y".data] :=
  ⟨(c4_row_alignment 3 [[Cell.pystr "a".data]]).1 _ (by decide),
   ((c4_row_alignment 2 []).2.2 [Cell.pystr "x".data, Cell.pystr "y".data, Cell.pystr "z".data]).2.1
     (by decide)⟩

/-- C3.  Header-coercion fallback, for both profiles: whenever the raw
header's length equals the canonical column list's length and fewer than 5 of
the resolved labels are canonical column names, the coercion returns exactly
the canonical column list, in canonical order.  (For the non-Emirati profile
the resolution itself must succeed — a `None`/NaN label raises `TypeError`
inside `strip_bilingual_noise` before the fallback is reached.) -/
theorem c3_coerce_header_fallback (nf : Text → Text) (header : List Cell) :
    (header.length = EM_EXPECTED.length →
      (header.map (em_resolve_label nf)).countP (fun c => EM_EXPECTED.contains c) < 5 →
      em_coerce_header nf header = EM_EXPECTED) ∧
    (∀ mapped, ne_resolve_all nf header = .ok mapped →
      header.length = NE_EXPECTED.length →
      mapped.countP (fun c => NE_EXPECTED.contains c) < 5 →
      ne_coerce_header nf header = .ok NE_EXPECTED) := by
  constructor
  · intro hlen hcnt
    cases header with
    | nil => simp [EM_EXPECTED] at hlen
    | cons a t =>
      show (if ((a :: t).map (em_resolve_label nf)).countP
              (fun c => EM_EXPECTED.contains c) < 5 ∧
            ((a :: t).map (em_resolve_label nf)).length = EM_EXPECTED.length
          then EM_EXPECTED else (a :: t).map (em_resolve_label nf)) = EM_EXPECTED
      rw [if_pos ⟨hcnt, by rw [List.length_map]; exact hlen⟩]
  · intro mapped hm hlen hcnt
    cases header with
    | nil => simp [NE_EXPECTED] at hlen
    | cons a t =>
      have hlen2 : mapped.length = NE_EXPECTED.length :=
        (ne_resolve_all_length hm).trans hlen
      unfold ne_coerce_header
      simp only [List.isEmpty_cons, Bool.false_eq_true, if_false]
      rw [show (do
            let m ← ne_resolve_all nf (a :: t)
            if m.countP (fun c => NE_EXPECTED.contains c) < 5 ∧
                m.length = NE_EXPECTED.length then
              pure NE_EXPECTED
            else pure m : Except Unit (List Text)) =
          (ne_resolve_all nf (a :: t) >>= fun m =>
            if m.countP (fun c => NE_EXPECTED.contains c) < 5 ∧
                m.length = NE_EXPECTED.length then
              pure NE_EXPECTED
            else pure m) from rfl, hm]
      show (if mapped.countP (fun c => NE_EXPECTED.contains c) < 5 ∧
              mapped.length = NE_EXPECTED.length
            then pure NE_EXPECTED else pure mapped : Except Unit (List Text)) =
        .ok NE_EXPECTED
      rw [if_pos ⟨hcnt, hlen2⟩]
      rfl

theorem c3_coerce_header_fallback_witness :
    em_coerce_header nfkcModel
        (["z1", "z2", "z3", "z4", "z5", "z6", "z7", "z8", "z9"].map
          (fun s => Cell.pystr s.data)) = EM_EXPECTED ∧
    ne_coerce_header nfkcModel
        (["z1", "z2", "z3", "z4", "z5", "z6", "z7"].map
          (fun s => Cell.pystr s.data)) = .ok NE_EXPECTED :=
  ⟨(c3_coerce_header_fallback nfkcModel _).1 (by decide) (by decide),
   (c3_coerce_header_fallback nfkcModel _).2
     (["z1", "z2", "z3", "z4", "z5", "z6", "z7"].map (fun s => s.data))
     (by decide) (by decide) (by decide)⟩

/-- C8.  When extraction yields no raw rows, each of the three pipelines
stops with the `NoTablesFound` condition before any processing, producing no
table (the `Except.error` result carries no partial output). -/
theorem c8_no_tables_found (nf : Text → Text) :
    to_clean_dataframe_emirati nf [] = .error .noTablesFound ∧
    convert_main nf [] = .error .noTablesFound ∧
    to_clean_dataframe_non_emirati nf [] = .error .noTablesFound :=
  ⟨rfl, rfl, rfl⟩

/-- C9.  Meta-row filtering: any row whose joined non-null cells match the
configured meta pattern (case-insensitively, anchored at a word boundary or
start of string, followed by a word boundary or colon — including the
right-to-left phrases of the app profile) is removed from the output,
regardless of which column the phrase appears in; likewise for convert.py's
meta filter. -/
theorem c9_meta_row_filter :
    (∀ (hdrFn : List Cell → Bool) (rows : List (List Cell)) (r : List Cell),
      is_meta_row_app r = true → r ∉ drop_meta_headers hdrFn rows) ∧
    (∀ (rows : List (List Cell)) (r : List Cell),
      is_meta_row_convert r = true → r ∉ rows.filter (fun x => !is_meta_row_convert x)) := by
  constructor
  · intro hdrFn rows r hm hin
    unfold drop_meta_headers at hin
    have h1 := (List.mem_filter.mp hin).1
    have h2 := (List.mem_filter.mp h1).2
    rw [hm] at h2
    simp at h2
  · intro rows r hm hin
    have h2 := (List.mem_filter.mp hin).2
    rw [hm] at h2
    simp at h2

theorem c9_meta_row_filter_witness :
    [Cell.pystr "Printing Date: 01/01/2025".data] ∉
      drop_meta_headers em_is_header_row
        [[Cell.pystr "Printing Date: 01/01/2025".data],
         [Cell.pystr "1".data, Cell.pystr "John".data]] :=
  c9_meta_row_filter.1 em_is_header_row _ _ (by decide)

/-- C10 (counterexample).  A null Passport Number cell does not stringify to
`"nan"`: pandas renders a Python `None` in an object column as `"None"`. -/
theorem c10_passport_nan_counterexample :
    astypeStr Cell.pynone ≠ "nan".data ∧ passportStrip Cell.pynone = "None".data := by
  decide

theorem zip_self_map {α β : Type} (l : List α) (g : α → β) :
    l.zip (l.map g) = l.map (fun a => (a, g a)) := by
  induction l with
  | nil => rfl
  | cons x t ih => simp [ih]

theorem getD_set_self (r : List Cell) (i : Nat) (v : Cell) (h : i < r.length) :
    (r.set i v).getD i .pynone = v := by
  induction r generalizing i with
  | nil => simp at h
  | cons x t ih =>
    cases i with
    | zero => rfl
    | succ j =>
      rw [List.set_cons_succ, List.getD_cons_succ]
      exact ih j (by simpa using h)

theorem set_of_length_le (r : List Cell) (i : Nat) (v : Cell) (h : r.length ≤ i) :
    r.set i v = r := by
  induction r generalizing i with
  | nil => rfl
  | cons x t ih =>
    cases i with
    | zero => simp at h
    | succ j => rw [List.set_cons_succ, ih j (by simpa using h)]

theorem getD_of_length_le (r : List Cell) (i : Nat) (h : r.length ≤ i) :
    r.getD i .pynone = .pynone := by
  induction r generalizing i with
  | nil => cases i <;> rfl
  | cons x t ih =>
    cases i with
    | zero => simp at h
    | succ j => rw [List.getD_cons_succ]; exact ih j (by simpa using h)

theorem nePassportStep_rows {df : Df} (h : hasCol df "Passport Number".data = true) :
    (nePassportStep df).rows =
      (df.rows.map (fun r =>
        r.set (colIdx df.header "Passport Number".data)
          (.pystr (passportStrip
            (r.getD (colIdx df.header "Passport Number".data) .pynone))))).filter
        (fun r2 =>
          r2.getD (colIdx df.header "Passport Number".data) .pynone != Cell.pystr []) := by
  unfold nePassportStep
  rw [if_pos h]
  show (setCol df "Passport Number".data
      ((getCol df "Passport Number".data).map
        (fun c => .pystr (passportStrip c)))).rows.filter _ = _
  unfold setCol getCol
  rw [List.map_map, zip_self_map, List.map_map]
  rfl

/-- C10 (amended).  The required-passport filter only drops rows whose
Passport Number cell stringifies and trims to the empty string; a row whose
Passport Number is null stringifies to the non-empty text `"None"` (not
`"nan"`) and is therefore kept, not dropped. -/
theorem c10_passport_null_kept_amended :
    astypeStr Cell.pynone = "None".data ∧
    passportStrip Cell.pynone ≠ [] ∧
    (∀ (df : Df) (r2 : List Cell), hasCol df "Passport Number".data = true →
      r2 ∈ (nePassportStep df).rows →
      ∃ r ∈ df.rows,
        r2 = r.set (colIdx df.header "Passport Number".data)
          (.pystr (passportStrip (r.getD (colIdx df.header "Passport Number".data) .pynone))) ∧
        passportStrip (r.getD (colIdx df.header "Passport Number".data) .pynone) ≠ []) ∧
    (∀ (df : Df) (r : List Cell), hasCol df "Passport Number".data = true →
      r ∈ df.rows →
      r.getD (colIdx df.header "Passport Number".data) .pynone = Cell.pynone →
      r.set (colIdx df.header "Passport Number".data) (.pystr "None".data) ∈
        (nePassportStep df).rows) := by
  refine ⟨rfl, by decide, ?_, ?_⟩
  · intro df r2 h hin
    rw [nePassportStep_rows h] at hin
    have h1 := (List.mem_filter.mp hin).1
    have h2 := (List.mem_filter.mp hin).2
    rcases List.mem_map.mp h1 with ⟨r, hr, hval⟩
    refine ⟨r, hr, hval.symm, ?_⟩
    by_cases hlen : colIdx df.header "Passport Number".data < r.length
    · rw [← hval, getD_set_self r _ _ hlen] at h2
      intro hcon
      rw [hcon] at h2
      simp at h2
    · rw [getD_of_length_le r _ (by omega)]
      decide
  · intro df r h hr hnull
    rw [nePassportStep_rows h]
    apply List.mem_filter.mpr
    constructor
    · apply List.mem_map.mpr
      refine ⟨r, hr, ?_⟩
      rw [hnull, show passportStrip Cell.pynone = "None".data from by decide]
    · by_cases hlen : colIdx df.header "Passport Number".data < r.length
      · rw [getD_set_self r _ _ hlen]
        decide
      · rw [set_of_length_le r _ _ (by omega), getD_of_length_le r _ (by omega)]
        decide

theorem c10_passport_null_kept_witness :
    [Cell.pystr "None".data] ∈
      (nePassportStep
        ⟨["Passport Number".data], [[Cell.pynone], [Cell.pystr "A123".data]]⟩).rows :=
  c10_passport_null_kept_amended.2.2.2
    ⟨["Passport Number".data], [[Cell.pynone], [Cell.pystr "A123".data]]⟩
    [Cell.pynone] (by decide) (by decide) (by decide)

theorem convertSalaryCell_empty {c : Cell} (h : salKey c = []) :
    convertSalaryCell c = .ok none := by
  simp [convertSalaryCell, h]

theorem convertSalaryCell_parsed {c : Cell} {p : FloatParts} (hne : salKey c ≠ [])
    (h : pyFloatParse (salKey c) = some p) :
    convertSalaryCell c = .ok (some (partsVal p)) := by
  simp [convertSalaryCell, List.isEmpty_iff, hne, h]

theorem convertSalaryCell_bad {c : Cell} (hne : salKey c ≠ [])
    (h : pyFloatParse (salKey c) = none) :
    convertSalaryCell c = .error () := by
  simp [convertSalaryCell, List.isEmpty_iff, hne, h]

theorem convertTotalSalary_cons (c : Cell) (rest : List Cell) :
    convertTotalSalary (c :: rest) =
      (convertSalaryCell c >>= fun v =>
        convertTotalSalary rest >>= fun vs => pure (v :: vs)) := rfl

theorem convertTotalSalary_ok {col : List Cell}
    (h : ∀ c ∈ col, salKey c = [] ∨ (pyFloatParse (salKey c)).isSome = true) :
    convertTotalSalary col = .ok (col.map salVal) := by
  induction col with
  | nil => rfl
  | cons c rest ih =>
    have hrest : ∀ x ∈ rest, salKey x = [] ∨ (pyFloatParse (salKey x)).isSome = true :=
      fun x hx => h x (List.mem_cons_of_mem _ hx)
    rw [convertTotalSalary_cons, ih hrest]
    by_cases he : salKey c = []
    · rw [convertSalaryCell_empty he]
      show Except.ok (none :: rest.map salVal) = _
      rw [List.map_cons]
      have : salVal c = none := by simp [salVal, he]
      rw [this]
    · have hs : (pyFloatParse (salKey c)).isSome = true := by
        rcases h c (List.mem_cons_self c rest) with h1 | h1
        · exact absurd h1 he
        · exact h1
      rcases Option.isSome_iff_exists.mp hs with ⟨p, hp⟩
      rw [convertSalaryCell_parsed he hp]
      show Except.ok (some (partsVal p) :: rest.map salVal) = _
      rw [List.map_cons]
      have : salVal c = some (partsVal p) := by simp [salVal, he, hp]
      rw [this]

theorem convertTotalSalary_error {col : List Cell}
    (h : ∃ c ∈ col, salKey c ≠ [] ∧ pyFloatParse (salKey c) = none) :
    convertTotalSalary col = .error () := by
  induction col with
  | nil => rcases h with ⟨c, hc, _⟩; cases hc
  | cons c rest ih =>
    rcases h with ⟨c0, hc0, hbad⟩
    rcases List.mem_cons.mp hc0 with he | he
    · subst he
      rw [convertTotalSalary_cons, convertSalaryCell_bad hbad.1 hbad.2]
      rfl
    · rw [convertTotalSalary_cons]
      cases hcell : convertSalaryCell c with
      | error e => rfl
      | ok v =>
        rw [ih ⟨c0, he, hbad⟩]
        rfl

/-- C5 (counterexample).  A table whose Total Salary cell is a non-empty
unparsable string (`"abc"`) makes the whole Emirati pipeline raise — the
`astype(float)` conversion raises `ValueError` instead of producing a missing
value for that row. -/
theorem c5_total_salary_counterexample :
    to_clean_dataframe_emirati nfkcModel [emHeaderRow, emBadSalaryRow] =
      .error .conversionError := by
  decide

/-- C5 (amended).  The Total Salary conversion removes thousands-separator
commas and parses the remainder as a decimal number, and an empty string
becomes a missing value; but a non-empty unparsable value raises a conversion
error that fails the whole pipeline (no output is produced), rather than
becoming a missing value for that row. -/
theorem c5_total_salary_amended (col : List Cell) :
    ((∀ c ∈ col, salKey c = [] ∨ (pyFloatParse (salKey c)).isSome = true) →
      convertTotalSalary col = .ok (col.map salVal)) ∧
    ((∃ c ∈ col, salKey c ≠ [] ∧ pyFloatParse (salKey c) = none) →
      convertTotalSalary col = .error ()) :=
  ⟨convertTotalSalary_ok, convertTotalSalary_error⟩

theorem c5_total_salary_witness :
    convertTotalSalary [Cell.pystr "1,234.56".data, Cell.pystr []] =
      .ok ([Cell.pystr "1,234.56".data, Cell.pystr []].map salVal) ∧
    convertTotalSalary [Cell.pystr "abc".data] = .error () :=
  ⟨(c5_total_salary_amended _).1 (by decide),
   (c5_total_salary_amended _).2 ⟨Cell.pystr "abc".data, by decide⟩⟩

theorem dropWhile_append_all {p : Char → Bool} {xs ys : Text}
    (h : ∀ c ∈ xs, p c = true) :
    List.dropWhile p (xs ++ ys) = List.dropWhile p ys := by
  induction xs with
  | nil => rfl
  | cons x t ih =>
    rw [List.cons_append, List.dropWhile_cons, if_pos (h x (List.mem_cons_self x t))]
    exact ih (fun c hc => h c (List.mem_cons_of_mem _ hc))

theorem takeWhile_append_all {p : Char → Bool} {xs ys : Text}
    (h : ∀ c ∈ xs, p c = true) :
    List.takeWhile p (xs ++ ys) = xs ++ List.takeWhile p ys := by
  induction xs with
  | nil => rfl
  | cons x t ih =>
    rw [List.cons_append, List.takeWhile_cons, if_pos (h x (List.mem_cons_self x t)),
      ih (fun c hc => h c (List.mem_cons_of_mem _ hc)), List.cons_append]

theorem digit_not_space {c : Char} (h : isDigitChar c = true) : pySpace c = false := by
  apply bool_eq_false
  intro hsp
  simp only [isDigitChar, Bool.and_eq_true, decide_eq_true_eq] at h
  simp only [pySpace, Bool.or_eq_true, Bool.and_eq_true, decide_eq_true_eq,
    beq_iff_eq] at hsp
  omega

theorem lastNotDigit_spec {l : Text} {c : Char} (h : lastNotDigit l = true)
    (hc : l.getLast? = some c) : isDigitChar c = false := by
  unfold lastNotDigit at h
  rw [hc] at h
  simpa using h

theorem headNotDigit_spec {l : Text} {c : Char} (h : headNotDigit l = true)
    (hc : l.head? = some c) : isDigitChar c = false := by
  unfold headNotDigit at h
  rw [hc] at h
  simpa using h

theorem takeWhile_digits_reverse_of_lastNotDigit {a : Text}
    (ha : lastNotDigit a = true) : a.reverse.takeWhile isDigitChar = [] := by
  cases har : a.reverse with
  | nil => rfl
  | cons x t =>
    have hx : isDigitChar x = false := by
      apply lastNotDigit_spec ha
      rw [← List.head?_reverse, har]
      rfl
    rw [List.takeWhile_cons, if_neg (by simp [hx])]

theorem dropWhile_digits_reverse_of_lastNotDigit {a : Text}
    (ha : lastNotDigit a = true) : a.reverse.dropWhile isDigitChar = a.reverse := by
  cases har : a.reverse with
  | nil => rfl
  | cons x t =>
    have hx : isDigitChar x = false := by
      apply lastNotDigit_spec ha
      rw [← List.head?_reverse, har]
      rfl
    rw [List.dropWhile_cons, if_neg (by simp [hx])]

theorem splitPersonName_match {a d w : Text}
    (hd : ∀ c ∈ d, isDigitChar c = true) (hlen : 8 ≤ d.length)
    (hw : ∀ c ∈ w, pySpace c = true) (ha : lastNotDigit a = true) :
    splitPersonName (.pystr (a ++ d ++ w)) = (.pystr (stripWs a), .pystr d) := by
  have hrev : (a ++ d ++ w).reverse = w.reverse ++ (d.reverse ++ a.reverse) := by
    rw [List.reverse_append, List.reverse_append]
  have hr1 : ((a ++ d ++ w).reverse).dropWhile pySpace = d.reverse ++ a.reverse := by
    rw [hrev, dropWhile_append_all (fun c hc => hw c (List.mem_reverse.mp hc))]
    cases hdr : d.reverse with
    | nil =>
      exfalso
      have hd0 : d.length = 0 := by
        have := congrArg List.length hdr
        simpa using this
      omega
    | cons x t =>
      have hx : isDigitChar x = true := by
        apply hd
        rw [← List.mem_reverse, hdr]
        exact List.mem_cons_self x t
      show List.dropWhile pySpace (x :: (t ++ List.reverse a)) = (x :: t) ++ List.reverse a
      simp [List.dropWhile_cons, digit_not_space hx]
  have hds : ((a ++ d ++ w).reverse.dropWhile pySpace).takeWhile isDigitChar =
      d.reverse := by
    rw [hr1, takeWhile_append_all (fun c hc => hd c (List.mem_reverse.mp hc)),
      takeWhile_digits_reverse_of_lastNotDigit ha, List.append_nil]
  have hdd : ((a ++ d ++ w).reverse.dropWhile pySpace).dropWhile isDigitChar =
      a.reverse := by
    rw [hr1, dropWhile_append_all (fun c hc => hd c (List.mem_reverse.mp hc)),
      dropWhile_digits_reverse_of_lastNotDigit ha]
  show (if 8 ≤ (((a ++ d ++ w).reverse.dropWhile pySpace).takeWhile isDigitChar).length
      then
        (Cell.pystr (stripWs
            ((((a ++ d ++ w).reverse.dropWhile pySpace).dropWhile isDigitChar).reverse)),
         Cell.pystr ((((a ++ d ++ w).reverse.dropWhile pySpace).takeWhile isDigitChar).reverse))
      else (Cell.pystr (stripWs (a ++ d ++ w)), Cell.pystr [])) =
    (.pystr (stripWs a), .pystr d)
  rw [hds, hdd, List.length_reverse, if_pos hlen, List.reverse_reverse,
    List.reverse_reverse]

theorem splitPersonName_nomatch {s : Text}
    (h : ((s.reverse.dropWhile pySpace).takeWhile isDigitChar).length < 8) :
    splitPersonName (.pystr s) = (.pystr (stripWs s), .pystr []) := by
  show (if 8 ≤ ((s.reverse.dropWhile pySpace).takeWhile isDigitChar).length
      then
        (Cell.pystr (stripWs (((s.reverse.dropWhile pySpace).dropWhile isDigitChar).reverse)),
         Cell.pystr (((s.reverse.dropWhile pySpace).takeWhile isDigitChar).reverse))
      else (Cell.pystr (stripWs s), Cell.pystr [])) =
    (.pystr (stripWs s), .pystr [])
  rw [if_neg (by omega)]

theorem findIdx_append_first {l1 l2 : List Text} {x : Text}
    (h : ∀ y ∈ l1, (y == x) = false) :
    (l1 ++ x :: l2).findIdx (fun z => z == x) = l1.length := by
  induction l1 with
  | nil =>
    rw [List.nil_append, List.findIdx_cons]
    simp
  | cons y t ih =>
    rw [List.cons_append, List.findIdx_cons, h y (List.mem_cons_self y t)]
    simp [ih (fun z hz => h z (List.mem_cons_of_mem _ hz))]

theorem insertIdx_after_front {l1 l2 : List Text} {x y : Text} :
    (l1 ++ y :: l2).insertIdx (l1.length + 1) x = l1 ++ y :: x :: l2 := by
  induction l1 with
  | nil =>
    rw [List.nil_append, List.insertIdx_succ_cons]
    simp
  | cons a t ih =>
    rw [List.cons_append, List.length_cons, List.insertIdx_succ_cons, ih,
      List.cons_append]

theorem placePersonNumber_spec {l1 l2 : List Text}
    (hno : "Person Number".data ∉ l1 ++ "Person Name".data :: l2)
    (hl1 : ∀ y ∈ l1, y ≠ "Person Name".data) :
    placePersonNumber ((l1 ++ "Person Name".data :: l2) ++ ["Person Number".data]) =
      l1 ++ "Person Name".data :: "Person Number".data :: l2 := by
  unfold placePersonNumber
  rw [List.erase_append_right _ hno, List.erase_cons_head, List.append_nil]
  show List.insertIdx
      (List.findIdx (fun h => h == "Person Name".data)
        (l1 ++ "Person Name".data :: l2) + 1)
      "Person Number".data (l1 ++ "Person Name".data :: l2) =
    l1 ++ "Person Name".data :: "Person Number".data :: l2
  rw [findIdx_append_first (fun y hy => beq_eq_false_iff_ne.mpr (hl1 y hy))]
  exact insertIdx_after_front

/-- C6.  The all-employees name split: if the Person Name cell is a name part
whose last character is not a digit, followed by a run of ≥8 digits and then
only whitespace, the digit run becomes the Person Number and the name part is
trimmed; if the trailing digit run (after trailing whitespace) is shorter
than 8, Person Number is the empty string and Person Name is merely trimmed;
a null name yields an empty Person Number; and the Person Number column is
re-inserted immediately after Person Name in the column order. -/
theorem c6_person_name_split :
    (∀ a d w : Text, (∀ c ∈ d, isDigitChar c = true) → 8 ≤ d.length →
      (∀ c ∈ w, pySpace c = true) → lastNotDigit a = true →
      splitPersonName (.pystr (a ++ d ++ w)) = (.pystr (stripWs a), .pystr d)) ∧
    (∀ s : Text, ((s.reverse.dropWhile pySpace).takeWhile isDigitChar).length < 8 →
      splitPersonName (.pystr s) = (.pystr (stripWs s), .pystr [])) ∧
    splitPersonName .pynone = (.pynan, .pystr []) ∧
    (∀ l1 l2 : List Text,
      "Person Number".data ∉ l1 ++ "Person Name".data :: l2 →
      (∀ y ∈ l1, y ≠ "Person Name".data) →
      placePersonNumber ((l1 ++ "Person Name".data :: l2) ++ ["Person Number".data]) =
        l1 ++ "Person Name".data :: "Person Number".data :: l2) :=
  ⟨fun _ _ _ hd hlen hw ha => splitPersonName_match hd hlen hw ha,
   fun _ h => splitPersonName_nomatch h,
   rfl,
   fun _ _ hno hl1 => placePersonNumber_spec hno hl1⟩

theorem c6_person_name_split_witness :
    splitPersonName (.pystr "John Smith12345678".data) =
      (.pystr "John Smith".data, .pystr "12345678".data) ∧
    splitPersonName (.pystr "John Smith".data) =
      (.pystr "John Smith".data, .pystr []) ∧
    placePersonNumber
        ((["Passport Number".data] ++ "Person Name".data :: ["Card Type".data]) ++
          ["Person Number".data]) =
      ["Passport Number".data] ++ "Person Name".data :: "Person Number".data ::
        ["Card Type".data] :=
  ⟨c6_person_name_split.1 "John Smith".data "12345678".data []
      (by decide) (by decide) (by simp) (by decide),
   c6_person_name_split.2.1 "John Smith".data (by decide),
   c6_person_name_split.2.2.2 ["Passport Number".data] ["Card Type".data]
      (by decide) (by decide)⟩

theorem noRun5_spec {l t : Text} (h : noRun5 l = true) (ht : t <:+ l) :
    (t.takeWhile isDigitChar).length < 5 := by
  unfold noRun5 at h
  rw [List.all_eq_true] at h
  have h2 := h t ((List.mem_tails t l).mpr ht)
  simpa using h2

theorem noRun5_suffix {l t : Text} (h : noRun5 l = true) (ht : t <:+ l) :
    noRun5 t = true := by
  unfold noRun5
  rw [List.all_eq_true]
  intro u hu
  have hsub : u <:+ l := ((List.mem_tails u t).mp hu).trans ht
  simpa using noRun5_spec h hsub

theorem getLast?_of_suffix {l t : Text} {c : Char} (ht : t <:+ l)
    (hc : t.getLast? = some c) : l.getLast? = some c := by
  rcases ht with ⟨pre, hpre⟩
  rw [← hpre, List.getLast?_append, hc]
  rfl

theorem lastNotDigit_suffix {l t : Text} (h : lastNotDigit l = true) (ht : t <:+ l) :
    lastNotDigit t = true := by
  cases ht2 : t.getLast? with
  | none => unfold lastNotDigit; rw [ht2]
  | some c =>
    have hl := getLast?_of_suffix ht ht2
    have hd := lastNotDigit_spec h hl
    unfold lastNotDigit
    rw [ht2]
    simpa using hd

theorem firstAux_nil (cur : Text) :
    firstDigitRun5Aux cur [] = if 5 ≤ cur.length then cur.reverse else [] := rfl

theorem firstAux_cons_digit {c : Char} (cur rest : Text) (h : isDigitChar c = true) :
    firstDigitRun5Aux cur (c :: rest) = firstDigitRun5Aux (c :: cur) rest := by
  simp [firstDigitRun5Aux, h]

theorem firstAux_cons_nondigit {c : Char} (cur rest : Text) (h : isDigitChar c = false) :
    firstDigitRun5Aux cur (c :: rest) =
      if 5 ≤ cur.length then cur.reverse else firstDigitRun5Aux [] rest := by
  simp [firstDigitRun5Aux, h]

theorem firstAux_digits {xs : Text} (h : ∀ c ∈ xs, isDigitChar c = true) :
    ∀ (cur ys : Text), firstDigitRun5Aux cur (xs ++ ys) =
      firstDigitRun5Aux (xs.reverse ++ cur) ys := by
  induction xs with
  | nil => intro cur ys; simp
  | cons x t ih =>
    intro cur ys
    rw [List.cons_append, firstAux_cons_digit _ _ (h x (List.mem_cons_self x t)),
      ih (fun c hc => h c (List.mem_cons_of_mem _ hc)) (x :: cur) ys]
    congr 1
    simp

theorem firstAux_full_run {d b : Text} (hd : ∀ c ∈ d, isDigitChar c = true)
    (hlen : 5 ≤ d.length) (hb : headNotDigit b = true) :
    firstDigitRun5Aux [] (d ++ b) = d := by
  rw [firstAux_digits hd [] b, List.append_nil]
  cases b with
  | nil =>
    rw [firstAux_nil, if_pos (by simpa using hlen), List.reverse_reverse]
  | cons y t =>
    have hy : isDigitChar y = false := headNotDigit_spec hb rfl
    rw [firstAux_cons_nondigit _ _ hy, if_pos (by simpa using hlen),
      List.reverse_reverse]

theorem dropWhile_head_false {p : Char → Bool} {l : Text} {x : Char} {t : Text}
    (h : l.dropWhile p = x :: t) : p x = false := by
  induction l with
  | nil => cases h
  | cons y u ih =>
    rw [List.dropWhile_cons] at h
    by_cases hy : p y = true
    · rw [if_pos hy] at h; exact ih h
    · rw [if_neg hy] at h
      rcases List.cons.inj h with ⟨h1, _⟩
      rw [← h1]
      exact bool_eq_false hy

theorem firstAux_skip (rest : Text) :
    ∀ (n : Nat) (a : Text), a.length ≤ n → noRun5 a = true → lastNotDigit a = true →
      firstDigitRun5Aux [] (a ++ rest) = firstDigitRun5Aux [] rest := by
  intro n
  induction n with
  | zero =>
    intro a ha _ _
    have ha0 : a = [] := List.eq_nil_of_length_eq_zero (by omega)
    rw [ha0, List.nil_append]
  | succ n ih =>
    intro a ha hnr hld
    cases a with
    | nil => rw [List.nil_append]
    | cons c a1 =>
      by_cases hdig : isDigitChar c = true
      · have hsplit := List.takeWhile_append_dropWhile isDigitChar (c :: a1)
        have hrund : ∀ x ∈ (c :: a1).takeWhile isDigitChar, isDigitChar x = true :=
          fun x hx => List.mem_takeWhile_imp hx
        have hrunlen : ((c :: a1).takeWhile isDigitChar).length < 5 :=
          noRun5_spec hnr (List.suffix_refl _)
        cases hdr : (c :: a1).dropWhile isDigitChar with
        | nil =>
          exfalso
          have hall : (c :: a1).takeWhile isDigitChar = c :: a1 := by
            rw [hdr, List.append_nil] at hsplit
            exact hsplit
          have hdigL : isDigitChar ((c :: a1).getLast (by simp)) = true := by
            apply hrund
            rw [hall]
            exact List.getLast_mem (by simp)
          have hlast := lastNotDigit_spec hld
            (List.getLast?_eq_getLast_of_ne_nil (by simp))
          rw [hlast] at hdigL
          cases hdigL
        | cons x a3 =>
          have hx : isDigitChar x = false := dropWhile_head_false hdr
          have heq : (c :: a1) = (c :: a1).takeWhile isDigitChar ++ (x :: a3) := by
            rw [← hdr]
            exact hsplit.symm
          conv_lhs => rw [heq]
          rw [List.append_assoc, firstAux_digits hrund, List.append_nil,
            List.cons_append, firstAux_cons_nondigit _ _ hx,
            if_neg (by rw [List.length_reverse]; omega)]
          have hsuffix3 : a3 <:+ (c :: a1) := by
            have h2 : (x :: a3) <:+ (c :: a1) := hdr ▸ List.dropWhile_suffix isDigitChar
            exact (List.suffix_cons x a3).trans h2
          have hlen3 : a3.length ≤ n := by
            have hlc := congrArg List.length heq
            have hrunpos : 0 < ((c :: a1).takeWhile isDigitChar).length := by
              rw [List.takeWhile_cons, if_pos hdig]
              simp
            simp only [List.length_append, List.length_cons] at hlc ha ⊢
            omega
          exact ih a3 hlen3 (noRun5_suffix hnr hsuffix3) (lastNotDigit_suffix hld hsuffix3)
      · have hc : isDigitChar c = false := bool_eq_false hdig
        rw [List.cons_append, firstAux_cons_nondigit _ _ hc, if_neg (by simp)]
        have hsuf : a1 <:+ c :: a1 := List.suffix_cons c a1
        have hlen1 : a1.length ≤ n := by
          simp only [List.length_cons] at ha
          omega
        exact ih a1 hlen1 (noRun5_suffix hnr hsuf) (lastNotDigit_suffix hld hsuf)

theorem firstAux_nil_of_noRun5 {s : Text} :
    ∀ (cur : Text), noRun5 s = true →
      cur.length + (s.takeWhile isDigitChar).length < 5 →
      firstDigitRun5Aux cur s = [] := by
  induction s with
  | nil =>
    intro cur _ hlen
    rw [firstAux_nil, if_neg (by simp at hlen; omega)]
  | cons c t ih =>
    intro cur hnr hlen
    by_cases hdig : isDigitChar c = true
    · rw [firstAux_cons_digit _ _ hdig]
      apply ih (c :: cur) (noRun5_suffix hnr (List.suffix_cons c t))
      rw [List.takeWhile_cons, if_pos hdig] at hlen
      simp only [List.length_cons] at hlen ⊢
      omega
    · have hc := bool_eq_false hdig
      rw [firstAux_cons_nondigit _ _ hc, if_neg (by omega)]
      apply ih [] (noRun5_suffix hnr (List.suffix_cons c t))
      have hb := noRun5_spec hnr (List.suffix_cons c t)
      simpa using hb

/-- C7.  Card Number extraction: for a cell of the form `a ++ d ++ b` where
`a` contains no run of 5 consecutive digits and does not end in a digit, `d`
is a run of ≥5 digits, and `b` does not start with a digit, the extracted
value is exactly `d` — the first maximal digit run of length ≥5, shorter
earlier runs being skipped; a cell with no such run yields the empty string;
in particular `"AB12-34567-XYZ"` yields `"34567"` and a null cell yields the
empty string. -/
theorem c7_card_number_extraction :
    (∀ a d b : Text, (∀ c ∈ d, isDigitChar c = true) → 5 ≤ d.length →
      noRun5 a = true → lastNotDigit a = true → headNotDigit b = true →
      firstDigitRun5 (a ++ d ++ b) = d) ∧
    (∀ s : Text, noRun5 s = true → firstDigitRun5 s = []) ∧
    extractCardNumber (.pystr "AB12-34567-XYZ".data) = .pystr "34567".data ∧
    extractCardNumber .pynone = .pystr [] := by
  refine ⟨?_, ?_, by decide, by decide⟩
  · intro a d b hd hlen hna hld hhb
    show firstDigitRun5Aux [] (a ++ d ++ b) = d
    rw [List.append_assoc, firstAux_skip (d ++ b) a.length a (le_refl _) hna hld]
    exact firstAux_full_run hd hlen hhb
  · intro s h
    show firstDigitRun5Aux [] s = []
    apply firstAux_nil_of_noRun5 [] h
    have hb := noRun5_spec h (List.suffix_refl s)
    simpa using hb

theorem c7_card_number_extraction_witness :
    firstDigitRun5 ("AB12-".data ++ "34567".data ++ "-XYZ".data) = "34567".data ∧
    firstDigitRun5 "AB12".data = [] :=
  ⟨c7_card_number_extraction.1 "AB12-".data "34567".data "-XYZ".data
      (by decide) (by decide) (by decide) (by decide) (by decide),
   c7_card_number_extraction.2.1 "AB12".data (by decide)⟩

end MohreConv
